import Mathlib

/-!
Verification of the stock-data ingestion scripts.

Part 1 embeds `merge_stocks_data.py`: the reconciliation of a batch of
incoming stock records (read from a JSON file) against a snapshot of the
`stocks_search` table, and the batched upsert of the resulting insert /
update partitions.

Part 2 embeds `fill-fundamentals.py`: the Yahoo-primary /
Alpha-Vantage-fallback fetch, the per-endpoint retry loop, the merge of
the five Alpha Vantage sub-endpoint payloads into one record, and the
fundamentals field mapping with its `float(..., 0) or None` idiom and
None-stripping before the upsert.
-/

/-! ### Part 1: merge_stocks_data.py -/

/-- A JSON scalar as it appears in the `market_cap` field of the input
file: either a number or a string (the file uses numbers and the string
"N/A"; see the test fixtures), or JSON null. -/
inductive MCVal where
  | num (n : Int)
  | str (s : String)
  | null
deriving DecidableEq, Repr

/-- One record of the input JSON file (`stocks_data` element). -/
structure StockRecord where
  symbol : String
  name : String
  sector : String
  industry : String
  market_cap : MCVal
deriving DecidableEq, Repr

/-- One value of `existing_symbol_to_id_map`: the store-assigned `id` and
the stored `market_cap` (nullable) of a row already in `stocks_search`. -/
structure ExistingData where
  id : Int
  market_cap : Option Int
deriving DecidableEq, Repr

/-- The `stock_entry` dict built inside `_process_stock_data`.  The `id`
field models the `'id'` key, which is only added on the update path. -/
structure StockEntry where
  ticker : String
  company_name : String
  sector : String
  industry : String
  market_cap : Option MCVal
  exchange : String
  id : Option Int
deriving DecidableEq, Repr

/-- Models `None if stock['market_cap'] == 'N/A' else stock['market_cap']`
(merge_stocks_data.py line 119). -/
def normalizeMarketCap (v : MCVal) : Option MCVal :=
  if v = MCVal.str "N/A" then none else some v

/-- The `stock_entry` dict literal of `_process_stock_data`
(lines 114-121); `id` is absent at construction time. -/
def mkStockEntry (exchange : String) (s : StockRecord) : StockEntry :=
  { ticker := s.symbol
    company_name := s.name
    sector := s.sector
    industry := s.industry
    market_cap := normalizeMarketCap s.market_cap
    exchange := exchange
    id := none }

/-- The classification loop of `_process_stock_data` (lines 113-132):
absent symbol → `new_stocks`; present symbol with stored `market_cap`
null → `to_be_updated` tagged with the existing id; otherwise dropped.
The snapshot `existing_symbol_to_id_map` is modelled as a lookup
function. -/
def processStockData (exchange : String) (m : String → Option ExistingData) :
    List StockRecord → List StockEntry × List StockEntry
  | [] => ([], [])
  | s :: rest =>
    let p := processStockData exchange m rest
    match m s.symbol with
    | none => (mkStockEntry exchange s :: p.1, p.2)
    | some d =>
      if d.market_cap = none then
        (p.1, { mkStockEntry exchange s with id := some d.id } :: p.2)
      else p

/-- The contribution of one record to `new_stocks`. -/
def insEntry (exchange : String) (m : String → Option ExistingData)
    (s : StockRecord) : Option StockEntry :=
  match m s.symbol with
  | none => some (mkStockEntry exchange s)
  | some _ => none

/-- The contribution of one record to `to_be_updated`. -/
def updEntry (exchange : String) (m : String → Option ExistingData)
    (s : StockRecord) : Option StockEntry :=
  match m s.symbol with
  | none => none
  | some d =>
    if d.market_cap = none then
      some { mkStockEntry exchange s with id := some d.id }
    else none

theorem processStockData_eq (exchange : String)
    (m : String → Option ExistingData) (B : List StockRecord) :
    processStockData exchange m B =
      (B.filterMap (insEntry exchange m), B.filterMap (updEntry exchange m)) := by
  induction B with
  | nil => rfl
  | cons s rest ih =>
    simp only [processStockData, ih, List.filterMap_cons, insEntry, updEntry]
    cases h : m s.symbol with
    | none => simp
    | some d =>
      by_cases hmc : d.market_cap = none <;> simp [hmc]

theorem processStockData_length (exchange : String)
    (m : String → Option ExistingData) (B : List StockRecord) :
    (processStockData exchange m B).1.length +
      (processStockData exchange m B).2.length ≤ B.length := by
  induction B with
  | nil => simp [processStockData]
  | cons s rest ih =>
    simp only [processStockData]
    cases h : m s.symbol with
    | none => simpa using by omega
    | some d =>
      by_cases hmc : d.market_cap = none <;> simp [hmc] <;> omega

theorem mem_fst_processStockData {exchange : String}
    {m : String → Option ExistingData} {B : List StockRecord} {e : StockEntry}
    (h : e ∈ (processStockData exchange m B).1) :
    ∃ s, s ∈ B ∧ m s.symbol = none ∧ e = mkStockEntry exchange s := by
  rw [processStockData_eq] at h
  obtain ⟨s, hs, hf⟩ := List.mem_filterMap.mp h
  refine ⟨s, hs, ?_⟩
  unfold insEntry at hf
  cases hm : m s.symbol with
  | none => rw [hm] at hf; exact ⟨rfl, (Option.some.injEq _ _ ▸ hf).symm⟩
  | some d => rw [hm] at hf; exact absurd hf (by simp)

theorem mem_snd_processStockData {exchange : String}
    {m : String → Option ExistingData} {B : List StockRecord} {e : StockEntry}
    (h : e ∈ (processStockData exchange m B).2) :
    ∃ s d, s ∈ B ∧ m s.symbol = some d ∧ d.market_cap = none ∧
      e = { mkStockEntry exchange s with id := some d.id } := by
  rw [processStockData_eq] at h
  obtain ⟨s, hs, hf⟩ := List.mem_filterMap.mp h
  unfold updEntry at hf
  cases hm : m s.symbol with
  | none => rw [hm] at hf; exact absurd hf (by simp)
  | some d =>
    rw [hm] at hf
    dsimp only at hf
    by_cases hmc : d.market_cap = none
    · rw [if_pos hmc] at hf
      exact ⟨s, d, hs, hm, hmc, (Option.some.injEq _ _ ▸ hf).symm⟩
    · rw [if_neg hmc] at hf; exact absurd hf (by simp)

theorem fst_processStockData_id {exchange : String}
    {m : String → Option ExistingData} {B : List StockRecord} {e : StockEntry}
    (h : e ∈ (processStockData exchange m B).1) : e.id = none := by
  obtain ⟨s, _, _, he⟩ := mem_fst_processStockData h
  subst he; rfl

theorem snd_processStockData_id {exchange : String}
    {m : String → Option ExistingData} {B : List StockRecord} {e : StockEntry}
    (h : e ∈ (processStockData exchange m B).2) : ∃ i, e.id = some i := by
  obtain ⟨s, d, _, _, _, he⟩ := mem_snd_processStockData h
  subst he; exact ⟨d.id, rfl⟩

theorem mem_fst_of_absent {exchange : String}
    {m : String → Option ExistingData} {B : List StockRecord} {s : StockRecord}
    (hs : s ∈ B) (hm : m s.symbol = none) :
    mkStockEntry exchange s ∈ (processStockData exchange m B).1 := by
  rw [processStockData_eq]
  exact List.mem_filterMap.mpr ⟨s, hs, by simp [insEntry, hm]⟩

theorem mem_snd_of_pred {exchange : String}
    {m : String → Option ExistingData} {B : List StockRecord} {s : StockRecord}
    {d : ExistingData} (hs : s ∈ B) (hm : m s.symbol = some d)
    (hmc : d.market_cap = none) :
    { mkStockEntry exchange s with id := some d.id } ∈
      (processStockData exchange m B).2 := by
  rw [processStockData_eq]
  exact List.mem_filterMap.mpr ⟨s, hs, by simp [updEntry, hm, hmc]⟩

/-- C2: a record whose symbol is present in the snapshot is placed in
`to_be_updated` iff the stored `market_cap` is null; when placed there it
carries the existing row's store-assigned id; when the stored
`market_cap` is not null, no entry for that symbol appears in either
output list. -/
theorem claim_C2 (exchange : String) (m : String → Option ExistingData)
    (B : List StockRecord) (s : StockRecord) (d : ExistingData)
    (hs : s ∈ B) (hm : m s.symbol = some d) :
    (d.market_cap = none →
      { mkStockEntry exchange s with id := some d.id } ∈
        (processStockData exchange m B).2) ∧
    (∀ e, e ∈ (processStockData exchange m B).2 → e.ticker = s.symbol →
      e.id = some d.id ∧ d.market_cap = none) ∧
    (d.market_cap ≠ none →
      ∀ e, (e ∈ (processStockData exchange m B).1 ∨
            e ∈ (processStockData exchange m B).2) → e.ticker ≠ s.symbol) := by
  refine ⟨fun hmc => mem_snd_of_pred hs hm hmc, ?_, ?_⟩
  · intro e he ht
    obtain ⟨s', d', _, hm', hmc', he'⟩ := mem_snd_processStockData he
    have hts : s'.symbol = s.symbol := by rw [← ht, he']; rfl
    rw [hts, hm] at hm'
    obtain rfl : d = d' := by exact (Option.some.injEq _ _).mp hm'
    exact ⟨by rw [he'], hmc'⟩
  · intro hmc e he ht
    rcases he with he | he
    · obtain ⟨s', _, hm', he'⟩ := mem_fst_processStockData he
      have hts : s'.symbol = s.symbol := by rw [← ht, he']; rfl
      rw [hts, hm] at hm'
      exact Option.noConfusion hm'
    · obtain ⟨s', d', _, hm', hmc', he'⟩ := mem_snd_processStockData he
      have hts : s'.symbol = s.symbol := by rw [← ht, he']; rfl
      rw [hts, hm] at hm'
      obtain rfl : d = d' := by exact (Option.some.injEq _ _).mp hm'
      exact hmc hmc'

/-- A concrete incoming record for the witnesses. -/
def wStockAAPL : StockRecord :=
  { symbol := "AAPL", name := "Apple Inc.", sector := "Technology",
    industry := "Consumer Electronics", market_cap := MCVal.num 3000000000000 }

/-- A concrete stored row with null market cap for the witnesses. -/
def wExistingAAPL : ExistingData := { id := 7, market_cap := none }

/-- A concrete snapshot containing only the AAPL row. -/
def wMapAAPL : String → Option ExistingData :=
  fun k => if k = "AAPL" then some wExistingAAPL else none

theorem claim_C2_witness :
    { mkStockEntry "nasdaq" wStockAAPL with id := some 7 } ∈
      (processStockData "nasdaq" wMapAAPL [wStockAAPL]).2 :=
  (claim_C2 "nasdaq" wMapAAPL [wStockAAPL] wStockAAPL wExistingAAPL
    (List.mem_singleton.mpr rfl) (by simp [wMapAAPL, wStockAAPL])).1 rfl

/-- C3: a record whose symbol is absent from the snapshot is always
placed in `new_stocks`, regardless of the stored-market-cap predicate. -/
theorem claim_C3 (exchange : String) (m : String → Option ExistingData)
    (B : List StockRecord) (s : StockRecord)
    (hs : s ∈ B) (hm : m s.symbol = none) :
    mkStockEntry exchange s ∈ (processStockData exchange m B).1 :=
  mem_fst_of_absent hs hm

theorem claim_C3_witness :
    let s : StockRecord :=
      { symbol := "NEW", name := "New Co", sector := "X",
        industry := "Y", market_cap := MCVal.num 100 }
    mkStockEntry "nasdaq" s ∈ (processStockData "nasdaq" (fun _ => none) [s]).1 :=
  claim_C3 "nasdaq" (fun _ => none) _ _ (List.mem_singleton.mpr rfl) rfl

/-- C4: classification partitions the batch: the two output lists are the
order-preserving `filterMap` images of the input under the insert / update
selectors, at most one selector fires per record (so each record lands in
at most one list and the combined output size is at most the batch size),
and the two lists are disjoint. -/
theorem claim_C4 (exchange : String) (m : String → Option ExistingData)
    (B : List StockRecord) :
    (processStockData exchange m B).1 = B.filterMap (insEntry exchange m) ∧
    (processStockData exchange m B).2 = B.filterMap (updEntry exchange m) ∧
    (∀ s : StockRecord,
      insEntry exchange m s = none ∨ updEntry exchange m s = none) ∧
    (processStockData exchange m B).1.length +
      (processStockData exchange m B).2.length ≤ B.length ∧
    List.Disjoint (processStockData exchange m B).1
      (processStockData exchange m B).2 := by
  refine ⟨by rw [processStockData_eq], by rw [processStockData_eq], ?_,
    processStockData_length exchange m B, ?_⟩
  · intro s
    unfold insEntry updEntry
    cases m s.symbol with
    | none => exact Or.inr rfl
    | some d => exact Or.inl rfl
  · intro e h1 h2
    obtain ⟨i, hi⟩ := snd_processStockData_id h2
    rw [fst_processStockData_id h1] at hi
    exact Option.noConfusion hi

theorem claim_C4_witness :
    let s : StockRecord :=
      { symbol := "AAPL", name := "Apple Inc.", sector := "Technology",
        industry := "Consumer Electronics", market_cap := MCVal.num 3000000000000 }
    let B : List StockRecord := [s]
    let m : String → Option ExistingData := fun _ => none
    (processStockData "nasdaq" m B).1 = B.filterMap (insEntry "nasdaq" m) ∧
    (processStockData "nasdaq" m B).1.length +
      (processStockData "nasdaq" m B).2.length ≤ B.length :=
  ⟨(claim_C4 "nasdaq" _ _).1, (claim_C4 "nasdaq" _ _).2.2.2.1⟩

/-- C9: a `market_cap` equal to the string "N/A" is normalized to null in
the constructed entry, every other value is passed through unchanged, and
every entry in either output list of the classifier carries the
normalized market cap of some input record (so normalization happens
before classification and before any write). -/
theorem claim_C9 :
    normalizeMarketCap (MCVal.str "N/A") = none ∧
    (∀ v : MCVal, v ≠ MCVal.str "N/A" → normalizeMarketCap v = some v) ∧
    (∀ (exchange : String) (m : String → Option ExistingData)
       (B : List StockRecord) (e : StockEntry),
      (e ∈ (processStockData exchange m B).1 ∨
       e ∈ (processStockData exchange m B).2) →
      ∃ s, s ∈ B ∧ e.market_cap = normalizeMarketCap s.market_cap) := by
  refine ⟨rfl, fun v hv => by simp [normalizeMarketCap, hv], ?_⟩
  intro exchange m B e he
  rcases he with he | he
  · obtain ⟨s, hs, _, he'⟩ := mem_fst_processStockData he
    exact ⟨s, hs, by rw [he']; rfl⟩
  · obtain ⟨s, d, hs, _, _, he'⟩ := mem_snd_processStockData he
    exact ⟨s, hs, by rw [he']; rfl⟩

theorem claim_C9_witness :
    normalizeMarketCap (MCVal.str "N/A") = none ∧
    normalizeMarketCap (MCVal.num 800000000000) = some (MCVal.num 800000000000) :=
  ⟨claim_C9.1, claim_C9.2.1 _ (by simp)⟩

/-- The chunking of `_insert_stocks_in_batches` (lines 134-148):
`for i in range(0, len(stocks), 1000): batch = stocks[i:i + 1000]`.
Returns the list of batches, one per upsert call, in call order. -/
def batchChunks {α : Type} : List α → List (List α)
  | [] => []
  | x :: xs => ((x :: xs).take 1000) :: batchChunks ((x :: xs).drop 1000)
termination_by l => l.length
decreasing_by
  simp only [List.length_drop, List.length_cons]
  omega

theorem batchChunks_nil {α : Type} : batchChunks ([] : List α) = [] := by
  rw [batchChunks]

theorem batchChunks_ne_nil {α : Type} {l : List α} (h : l ≠ []) :
    batchChunks l = l.take 1000 :: batchChunks (l.drop 1000) := by
  cases l with
  | nil => exact absurd rfl h
  | cons x xs => rw [batchChunks]

theorem batchChunks_flatten {α : Type} (l : List α) :
    (batchChunks l).flatten = l := by
  generalize hn : l.length = n
  induction n using Nat.strong_induction_on generalizing l with
  | _ n ih =>
    by_cases h : l = []
    · subst h; simp [batchChunks_nil]
    · rw [batchChunks_ne_nil h]
      have hlen : (l.drop 1000).length < n := by
        rw [← hn]
        simp only [List.length_drop]
        have : 0 < l.length := List.length_pos.mpr h
        omega
      rw [List.flatten_cons, ih _ hlen _ rfl, List.take_append_drop]

theorem batchChunks_size {α : Type} (l : List α) :
    ∀ c ∈ batchChunks l, c.length ≤ 1000 := by
  generalize hn : l.length = n
  induction n using Nat.strong_induction_on generalizing l with
  | _ n ih =>
    by_cases h : l = []
    · subst h; simp [batchChunks_nil]
    · rw [batchChunks_ne_nil h]
      intro c hc
      rcases List.mem_cons.mp hc with hc | hc
      · subst hc; simp [List.length_take]
      · have hlen : (l.drop 1000).length < n := by
          rw [← hn]
          simp only [List.length_drop]
          have : 0 < l.length := List.length_pos.mpr h
          omega
        exact ih _ hlen _ rfl c hc

theorem batchChunks_1500 {α : Type} (l : List α) (h : l.length = 1500) :
    batchChunks l = [l.take 1000, l.drop 1000] := by
  have h1 : l ≠ [] := by
    intro hl; rw [hl] at h; simp at h
  have h2 : l.drop 1000 ≠ [] := by
    intro hl
    have := congrArg List.length hl
    simp [h] at this
  have h3 : (l.drop 1000).drop 1000 = [] := by
    apply List.drop_eq_nil_of_le
    rw [List.length_drop, h]
    omega
  have h4 : (l.drop 1000).take 1000 = l.drop 1000 := by
    apply List.take_of_length_le
    rw [List.length_drop, h]
    omega
  rw [batchChunks_ne_nil h1, batchChunks_ne_nil h2, h3, batchChunks_nil, h4]

/-- C5: the batch upserter splits its input into consecutive chunks of at
most 1000 records (their concatenation is the input, so it issues one
write call per chunk in order); on 1500 records it issues exactly the two
calls `take 1000` and `drop 1000`, of sizes 1000 and 500; on an empty
list it issues zero calls. -/
theorem claim_C5 (α : Type) (l : List α) :
    batchChunks ([] : List α) = [] ∧
    (batchChunks l).flatten = l ∧
    (∀ c ∈ batchChunks l, c.length ≤ 1000) ∧
    (l.length = 1500 →
      batchChunks l = [l.take 1000, l.drop 1000] ∧
      (batchChunks l).map List.length = [1000, 500]) := by
  refine ⟨batchChunks_nil, batchChunks_flatten l, batchChunks_size l, fun h => ?_⟩
  refine ⟨batchChunks_1500 l h, ?_⟩
  rw [batchChunks_1500 l h]
  simp only [List.map_cons, List.map_nil, List.length_take, List.length_drop, h]
  decide

theorem claim_C5_witness :
    (List.replicate 1500 (0 : ℕ)).length = 1500 ∧
    (batchChunks (List.replicate 1500 (0 : ℕ))).map List.length = [1000, 500] ∧
    batchChunks ([] : List ℕ) = [] := by
  have hlen : (List.replicate 1500 (0 : ℕ)).length = 1500 := by
    rw [List.length_replicate]
  have h := claim_C5 ℕ (List.replicate 1500 0)
  exact ⟨hlen, (h.2.2.2 hlen).2, h.1⟩

/-- The body of the write loop of `_insert_stocks_in_batches`: one report
entry per chunk, in order, holding the 1-based batch number printed by
the script (`i // BATCH_SIZE + 1`), the chunk size, and the write error
(if any) reported by the store for that call.  The store's outcome for
the j-th call is modelled by `err j`. -/
def insertLoop {α : Type} (err : ℕ → Option String) :
    List (List α) → ℕ → List (ℕ × ℕ × Option String)
  | [], _ => []
  | c :: cs, j => (j + 1, c.length, err j) :: insertLoop err cs (j + 1)

/-- Embedding of `_insert_stocks_in_batches`: chunk the input and attempt every chunk,
collecting the per-chunk report.  The function is total: a failing chunk
is logged (its report entry carries the error) and the loop proceeds to
the next chunk. -/
def insertStocksInBatches {α : Type} (stocks : List α)
    (err : ℕ → Option String) : List (ℕ × ℕ × Option String) :=
  insertLoop err (batchChunks stocks) 0

theorem insertLoop_length {α : Type} (err : ℕ → Option String) :
    ∀ (cs : List (List α)) (j : ℕ), (insertLoop err cs j).length = cs.length := by
  intro cs
  induction cs with
  | nil => intro j; rfl
  | cons c cs ih => intro j; simp [insertLoop, ih]

theorem insertLoop_get {α : Type} (err : ℕ → Option String) :
    ∀ (cs : List (List α)) (j i : ℕ),
      (insertLoop err cs j)[i]? =
        (cs[i]?).map (fun c => (j + i + 1, c.length, err (j + i))) := by
  intro cs
  induction cs with
  | nil => intro j i; simp [insertLoop]
  | cons c cs ih =>
    intro j i
    cases i with
    | zero => simp [insertLoop]
    | succ i =>
      have h1 : j + 1 + i + 1 = j + (i + 1) + 1 := by omega
      have h2 : j + 1 + i = j + (i + 1) := by omega
      simp only [insertLoop, List.getElem?_cons_succ, ih (j + 1) i, h1, h2]

/-- C6: the batch upsert always attempts every chunk and completes: the
report has exactly one entry per chunk, and the entry for chunk `i`
records its 1-based batch number, its size, and the store's error for
that call — including when that call failed — so a failure on chunk `i`
is recorded and does not prevent chunk `i + 1` (whose report entry also
exists) from being attempted. -/
theorem claim_C6 (α : Type) (stocks : List α) (err : ℕ → Option String)
    (i : ℕ) :
    (insertStocksInBatches stocks err).length = (batchChunks stocks).length ∧
    (insertStocksInBatches stocks err)[i]? =
      ((batchChunks stocks)[i]?).map (fun c => (i + 1, c.length, err i)) := by
  refine ⟨insertLoop_length err _ 0, ?_⟩
  have := insertLoop_get err (batchChunks stocks) 0 i
  simpa [insertStocksInBatches] using this

/-- Concrete input for the C6 witness: 1001 records, so two chunks. -/
def wStocks1001 : List ℕ := List.replicate 1001 0

/-- Concrete store behaviour for the C6 witness: the first call fails. -/
def wErrFirst : ℕ → Option String :=
  fun j => if j = 0 then some "duplicate key" else none

theorem claim_C6_witness :
    (insertStocksInBatches wStocks1001 wErrFirst).length =
      (batchChunks wStocks1001).length ∧
    (insertStocksInBatches wStocks1001 wErrFirst)[0]? =
      some (1, 1000, some "duplicate key") ∧
    (insertStocksInBatches wStocks1001 wErrFirst)[1]? = some (2, 1, none) := by
  have h1001 : wStocks1001.length = 1001 := by
    unfold wStocks1001; rw [List.length_replicate]
  have hne : wStocks1001 ≠ [] := by
    intro hl; rw [hl] at h1001; exact absurd h1001 (by decide)
  have hdl : (wStocks1001.drop 1000).length = 1 := by
    rw [List.length_drop, h1001]
  have hd : wStocks1001.drop 1000 ≠ [] := by
    intro hl; rw [hl] at hdl; exact absurd hdl (by decide)
  have hdd : (wStocks1001.drop 1000).drop 1000 = [] := by
    apply List.drop_eq_nil_of_le
    rw [List.length_drop, h1001]
    omega
  have htk : (wStocks1001.drop 1000).take 1000 = wStocks1001.drop 1000 := by
    apply List.take_of_length_le
    rw [hdl]; omega
  have hc : batchChunks wStocks1001 =
      [wStocks1001.take 1000, wStocks1001.drop 1000] := by
    rw [batchChunks_ne_nil hne, batchChunks_ne_nil hd, hdd, batchChunks_nil, htk]
  have htl : (wStocks1001.take 1000).length = 1000 := by
    rw [List.length_take, h1001]
    omega
  obtain ⟨ha, hb⟩ := claim_C6 ℕ wStocks1001 wErrFirst 0
  obtain ⟨-, hb1⟩ := claim_C6 ℕ wStocks1001 wErrFirst 1
  refine ⟨ha, ?_, ?_⟩
  · rw [hb, hc]
    simp only [List.getElem?_cons_zero, Option.map_some', htl]
    rfl
  · rw [hb1, hc]
    simp only [List.getElem?_cons_succ, List.getElem?_cons_zero,
      Option.map_some', hdl]
    rfl

/-! ### Part 2: fill-fundamentals.py -/

/-- A JSON value, as decoded from a provider response body.  Numbers are
modelled over `Int`: the claims under study only depend on whether a
numeric field parses and whether it is zero, never on fractional
values. -/
inductive Json where
  | num (n : Int)
  | str (s : String)
  | obj (fields : List (String × Json))
  | arr (items : List Json)
  | null

/-- A decoded JSON object body (a Python dict). -/
abbrev JDict := List (String × Json)

/-- Models `d.get(k)` on a dict: the first binding for `k`, if any. -/
def jget (d : JDict) (k : String) : Option Json :=
  (d.find? (fun p => p.1 == k)).map (fun p => p.2)

/-- Python `float(v)` / `int(v)` applied to a JSON value, over the `Int`
number model: numbers pass through, numeric strings parse, anything else
(`None`, lists, dicts, non-numeric strings) raises — modelled as `none`. -/
def pyNum : Json → Option Int
  | Json.num n => some n
  | Json.str s => s.toInt?
  | _ => none

/-- Models `float(d.get(k, 0))`: a missing key defaults to `0`; a present value
goes through `pyNum`; `none` means the conversion raised. -/
def getFloat (d : JDict) (k : String) : Option Int :=
  match jget d k with
  | none => some 0
  | some v => pyNum v

/-- Models `d.get(k, {})` followed by dict access on the result: a missing key
yields the empty dict; a present non-dict value makes the subsequent
attribute access raise (`none`). -/
def getObj (d : JDict) (k : String) : Option JDict :=
  match jget d k with
  | none => some []
  | some (Json.obj f) => some f
  | some _ => none

/-- Models `d.get('annualReports', [{}])[0]` (lines 113-115): a missing key
defaults to `[{}]` whose first element is the empty dict; a present empty
list raises `IndexError`; a present non-list, or a list whose first
element is not a dict, makes the subsequent access raise. -/
def getReports (d : JDict) (k : String) : Option JDict :=
  match jget d k with
  | none => some []
  | some (Json.arr (Json.obj f :: _)) => some f
  | some _ => none

/-- A top-level decoded response that must itself be a dict for `.get`
to work. -/
def asObj : Json → Option JDict
  | Json.obj f => some f
  | _ => none

/-- The five Alpha Vantage sub-endpoints queried by
`fetch_alpha_vantage_data` (lines 39-60). -/
inductive Endpoint where
  | overview
  | quote
  | income
  | balance
  | cashflow
deriving DecidableEq, Repr

/-- The endpoints in request order. -/
def avEndpoints : List Endpoint :=
  [Endpoint.overview, Endpoint.quote, Endpoint.income, Endpoint.balance,
   Endpoint.cashflow]

/-- The observable outcome of one HTTP request in the Alpha Vantage retry
loop: HTTP 429, a 200 body carrying the embedded "API call frequency"
throttle note, a successfully decoded payload, or anything that raises
(network error, non-2xx raised by `raise_for_status`, JSON decode
error). -/
inductive AVResp where
  | rateLimited
  | throttleNote
  | ok (payload : Json)
  | exn

/-- The outcome of the per-endpoint attempt loop (lines 65-97): a payload
stored in `result` (`break`), the loop exhausting `range(max_retries)`
with no `break` (the endpoint is silently absent from `result`), or the
`except` branch on the final attempt (`return None` aborts the whole
fetch). -/
inductive EndpointResult where
  | got (payload : Json)
  | missing
  | abort

/-- The body of `for attempt in range(max_retries)` for one endpoint.
`attempt` is the current 0-based attempt index and the second argument is
the number of loop iterations still available.  A 429 and an embedded
throttle note both `continue` — consuming the loop iteration — and an
exception returns `abort` exactly when it happens on the final
iteration (`attempt == max_retries - 1`). -/
def runEndpointAux (op : ℕ → AVResp) (attempt : ℕ) : ℕ → EndpointResult
  | 0 => EndpointResult.missing
  | remaining + 1 =>
    match op attempt with
    | AVResp.ok d => EndpointResult.got d
    | AVResp.rateLimited => runEndpointAux op (attempt + 1) remaining
    | AVResp.throttleNote => runEndpointAux op (attempt + 1) remaining
    | AVResp.exn =>
      if remaining = 0 then EndpointResult.abort
      else runEndpointAux op (attempt + 1) remaining

/-- The whole attempt loop for one endpoint, starting at attempt 0 with
`maxRetries` iterations available. -/
def runEndpoint (op : ℕ → AVResp) (maxRetries : ℕ) : EndpointResult :=
  runEndpointAux op 0 maxRetries

/-- The endpoint loop of `fetch_alpha_vantage_data` (lines 64-97): run
the attempt loop for each endpoint in order, collecting the payloads that
were stored in `result`; an `abort` on any endpoint makes the whole fetch
return `None`. -/
def collectEndpoints (ops : Endpoint → ℕ → AVResp) (maxRetries : ℕ) :
    List Endpoint → Option (List (Endpoint × Json))
  | [] => some []
  | e :: es =>
    match runEndpoint (ops e) maxRetries with
    | EndpointResult.abort => none
    | EndpointResult.missing => collectEndpoints ops maxRetries es
    | EndpointResult.got d =>
      (collectEndpoints ops maxRetries es).map (fun L => (e, d) :: L)

/-- Lookup in the collected `result` dict. -/
def avData (L : List (Endpoint × Json)) : Endpoint → Option Json :=
  fun e => (L.find? (fun p => decide (p.1 = e))).map (fun p => p.2)

/-- The normalized record built by `process_alpha_vantage_data`
(lines 117-137), with the nested `financials` flattened into named
fields. -/
structure AVRecord where
  currentPrice : Int
  volume : Int
  marketCap : Int
  totalRevenue : Int
  netIncome : Int
  grossProfit : Int
  totalAssets : Int
  totalLiabilities : Int
  totalEquity : Int
  operatingCashflow : Int
  capitalExpenditures : Int
deriving DecidableEq, Repr

/-- Models `quote_data = data['quote'].get('Global Quote', {})` (line 111). -/
def avQuoteDict (data : Endpoint → Option Json) : Option JDict :=
  ((data Endpoint.quote).bind asObj).bind (fun top => getObj top "Global Quote")

/-- Models `overview_data = data['overview']` (line 112), which must be a dict
for the later `.get` calls. -/
def avOverviewDict (data : Endpoint → Option Json) : Option JDict :=
  (data Endpoint.overview).bind asObj

/-- Models `data[e].get('annualReports', [{}])[0]` (lines 113-115). -/
def avReportDict (data : Endpoint → Option Json) (e : Endpoint) : Option JDict :=
  ((data e).bind asObj).bind (fun top => getReports top "annualReports")

/-- The dict literal of `process_alpha_vantage_data` (lines 117-137):
every field is a `float(... .get(k, 0))` conversion; if any conversion
raises, the enclosing `except` returns `None`. -/
def buildAVRecord (q o i b c : JDict) : Option AVRecord :=
  match getFloat q "05. price", getFloat q "06. volume",
      getFloat o "MarketCapitalization",
      getFloat i "totalRevenue", getFloat i "netIncome",
      getFloat i "grossProfit",
      getFloat b "totalAssets", getFloat b "totalLiabilities",
      getFloat b "totalShareholderEquity",
      getFloat c "operatingCashflow", getFloat c "capitalExpenditures" with
  | some p, some v, some mc, some tr, some ni, some gp, some ta, some tl,
      some te, some oc, some ce =>
    some (AVRecord.mk p v mc tr ni gp ta tl te oc ce)
  | _, _, _, _, _, _, _, _, _, _, _ => none

/-- Embedding of `process_alpha_vantage_data` (lines 103-140): `None` unless all five
endpoint keys are present in `result` (line 108); then the sub-dict and
field extractions, any of which can raise into the enclosing `except`
(also `None`). -/
def processAlphaVantageData (data : Endpoint → Option Json) : Option AVRecord :=
  if avEndpoints.all (fun e => (data e).isSome) then
    match avQuoteDict data, avOverviewDict data,
        avReportDict data Endpoint.income, avReportDict data Endpoint.balance,
        avReportDict data Endpoint.cashflow with
    | some q, some o, some i, some b, some c => buildAVRecord q o i b c
    | _, _, _, _, _ => none
  else none

/-- Embedding of `fetch_alpha_vantage_data` (lines 28-100): run the endpoint loops,
then process the collected payloads. -/
def fetchAlphaVantage (ops : Endpoint → ℕ → AVResp) (maxRetries : ℕ) :
    Option AVRecord :=
  match collectEndpoints ops maxRetries avEndpoints with
  | none => none
  | some L => processAlphaVantageData (avData L)

/-- The record returned by a successful `fetch_yahoo_data`
(lines 217-220). -/
structure YahooQuote where
  currentPrice : Int
  volume : Int
deriving DecidableEq, Repr

/-- The observable outcome of one request in the Yahoo retry loop
(lines 195-228): HTTP 429, a successfully parsed chart payload, or
anything that raises (network error, non-2xx, malformed payload missing
the `chart`/`result`/`meta` keys). -/
inductive YResp where
  | rateLimited
  | ok (price : Int) (vol : Int)
  | exn
deriving DecidableEq, Repr

/-- The body of `for attempt in range(max_retries)` in `fetch_yahoo_data`:
a 429 `continue`s — consuming the loop iteration (the long cool-off sleep
on this path is commented out in the source) — and an exception returns
`None` exactly when it happens on the final iteration; exhausting the
loop falls through to `return None` (line 228). -/
def fetchYahooAux (op : ℕ → YResp) (attempt : ℕ) : ℕ → Option YahooQuote
  | 0 => none
  | remaining + 1 =>
    match op attempt with
    | YResp.ok p v => some (YahooQuote.mk p v)
    | YResp.rateLimited => fetchYahooAux op (attempt + 1) remaining
    | YResp.exn =>
      if remaining = 0 then none
      else fetchYahooAux op (attempt + 1) remaining

/-- Embedding of `fetch_yahoo_data` (lines 192-228). -/
def fetchYahooData (op : ℕ → YResp) (maxRetries : ℕ) : Option YahooQuote :=
  fetchYahooAux op 0 maxRetries

/-- Embedding of `fetch_stock_data` (lines 14-25): try Yahoo first; if it returned a
record, return it; otherwise return whatever Alpha Vantage returns.  The
two providers' results are the function's inputs; the sum distinguishes
which provider produced the returned record. -/
def fetchStockData (yahoo : Option YahooQuote) (alpha : Option AVRecord) :
    Option (YahooQuote ⊕ AVRecord) :=
  match yahoo with
  | some d => some (Sum.inl d)
  | none => alpha.map Sum.inr

/-- The `data_source` tag of `_fetch_stock_data_with_fallback`. -/
inductive DataSource where
  | yahoo
  | alphaVantage
deriving DecidableEq, Repr

/-- Embedding of `_fetch_stock_data_with_fallback` (lines 440-458), returning the
triple `(yahoo_data, detailed_data, data_source)`.  `detailed` is the
result of `fetch_detailed_yahoo_data`, only consulted on the Yahoo
path; on the Alpha Vantage path the same record serves as both
components. -/
def fetchStockDataWithFallback (yahoo : Option YahooQuote)
    (detailed : Option JDict) (alpha : Option AVRecord) :
    Option (YahooQuote ⊕ AVRecord) × Option (JDict ⊕ AVRecord) ×
      Option DataSource :=
  match yahoo with
  | some y => (some (Sum.inl y), detailed.map Sum.inl, some DataSource.yahoo)
  | none =>
    match alpha with
    | some a => (some (Sum.inr a), some (Sum.inr a), some DataSource.alphaVantage)
    | none => (none, none, none)

theorem runEndpointAux_rateLimited {op : ℕ → AVResp}
    (h : ∀ n, op n = AVResp.rateLimited) :
    ∀ (remaining attempt : ℕ),
      runEndpointAux op attempt remaining = EndpointResult.missing := by
  intro remaining
  induction remaining with
  | zero => intro attempt; rfl
  | succ r ih =>
    intro attempt
    simp only [runEndpointAux, h attempt]
    exact ih (attempt + 1)

theorem fetchYahooAux_rateLimited {op : ℕ → YResp}
    (h : ∀ n, op n = YResp.rateLimited) :
    ∀ (remaining attempt : ℕ), fetchYahooAux op attempt remaining = none := by
  intro remaining
  induction remaining with
  | zero => intro attempt; rfl
  | succ r ih =>
    intro attempt
    simp only [fetchYahooAux, h attempt]
    exact ih (attempt + 1)

theorem collectEndpoints_rateLimited {ops : Endpoint → ℕ → AVResp}
    {maxRetries : ℕ} (h : ∀ e n, ops e n = AVResp.rateLimited) :
    ∀ es : List Endpoint, collectEndpoints ops maxRetries es = some [] := by
  intro es
  induction es with
  | nil => rfl
  | cons e es ih =>
    simp only [collectEndpoints, runEndpoint,
      runEndpointAux_rateLimited (h e) maxRetries 0]
    exact ih

/-- C1 counterexample: at the source's own default `max_retries = 1`, an
operation that always reports rate-limited exhausts the attempt budget
immediately — the `continue` consumes the loop iteration instead of
resetting it — and both fetchers fail, contradicting "an operation that
always reports rate-limited never exhausts maxAttempts". -/
theorem claim_C1_counterexample :
    fetchYahooData (fun _ => YResp.rateLimited) 1 = none ∧
    fetchAlphaVantage (fun _ _ => AVResp.rateLimited) 1 = none ∧
    runEndpoint (fun _ => AVResp.rateLimited) 1 = EndpointResult.missing :=
  ⟨rfl, rfl, rfl⟩

/-- C1 (amended): a rate-limited response (HTTP 429 or the embedded
throttle note) consumes an attempt from the same `max_retries` budget as
any other failure — the attempt counter is not reset — so for every
`max_retries`, an operation that always reports rate-limited exhausts the
budget and the fetch fails: the Yahoo loop falls through to `return
None`, and the Alpha Vantage loop leaves every endpoint out of `result`,
so processing returns `None`. -/
theorem claim_C1 (maxRetries : ℕ) (ops : Endpoint → ℕ → AVResp)
    (yop : ℕ → YResp) (hops : ∀ e n, ops e n = AVResp.rateLimited)
    (hyop : ∀ n, yop n = YResp.rateLimited) :
    fetchAlphaVantage ops maxRetries = none ∧
    fetchYahooData yop maxRetries = none ∧
    (∀ e, runEndpoint (ops e) maxRetries = EndpointResult.missing) := by
  refine ⟨?_, fetchYahooAux_rateLimited hyop maxRetries 0, fun e =>
    runEndpointAux_rateLimited (hops e) maxRetries 0⟩
  rw [fetchAlphaVantage, collectEndpoints_rateLimited hops]
  rfl

theorem claim_C1_witness :
    ((∀ e n, (fun (_ : Endpoint) (_ : ℕ) => AVResp.rateLimited) e n =
        AVResp.rateLimited) ∧
     (∀ n, (fun (_ : ℕ) => YResp.rateLimited) n = YResp.rateLimited)) ∧
    fetchAlphaVantage (fun _ _ => AVResp.rateLimited) 5 = none ∧
    fetchYahooData (fun _ => YResp.rateLimited) 5 = none :=
  ⟨⟨fun _ _ => rfl, fun _ => rfl⟩,
    (claim_C1 5 _ _ (fun _ _ => rfl) (fun _ => rfl)).1,
    (claim_C1 5 _ _ (fun _ _ => rfl) (fun _ => rfl)).2.1⟩

/-- C7: the fetch tries Yahoo first and returns its record whenever Yahoo
succeeds; the result does not depend on Alpha Vantage when Yahoo
succeeded (the fallback is only consulted after the primary failed —
returned `None`, which covers network errors, raised statuses, malformed
payloads and exhausted rate-limit retries); and the fetch returns `None`
iff both providers returned `None`.  Stated for both `fetch_stock_data`
and `_fetch_stock_data_with_fallback`. -/
theorem claim_C7 (yahoo : Option YahooQuote) (detailed : Option JDict)
    (alpha : Option AVRecord) :
    (∀ d, yahoo = some d → fetchStockData yahoo alpha = some (Sum.inl d)) ∧
    (fetchStockData yahoo alpha = none ↔ yahoo = none ∧ alpha = none) ∧
    (∀ alpha', yahoo.isSome →
      fetchStockData yahoo alpha = fetchStockData yahoo alpha') ∧
    ((fetchStockDataWithFallback yahoo detailed alpha).1 = none ↔
      yahoo = none ∧ alpha = none) ∧
    (∀ alpha', yahoo.isSome →
      fetchStockDataWithFallback yahoo detailed alpha =
        fetchStockDataWithFallback yahoo detailed alpha') := by
  cases yahoo <;> cases alpha <;>
    simp [fetchStockData, fetchStockDataWithFallback]

theorem claim_C7_witness :
    fetchStockData (some (YahooQuote.mk 10 5)) none =
      some (Sum.inl (YahooQuote.mk 10 5)) ∧
    (fetchStockData (none : Option YahooQuote) (none : Option AVRecord) = none ↔
      (none : Option YahooQuote) = none ∧ (none : Option AVRecord) = none) :=
  ⟨(claim_C7 (some (YahooQuote.mk 10 5)) none none).1 _ rfl,
   (claim_C7 none none none).2.1⟩

theorem collectEndpoints_mem {ops : Endpoint → ℕ → AVResp} {mr : ℕ} :
    ∀ {es : List Endpoint} {L : List (Endpoint × Json)},
      collectEndpoints ops mr es = some L →
      ∀ p ∈ L, runEndpoint (ops p.1) mr = EndpointResult.got p.2 := by
  intro es
  induction es with
  | nil =>
    intro L h p hp
    simp only [collectEndpoints, Option.some.injEq] at h
    subst h
    simp at hp
  | cons e es ih =>
    intro L h p hp
    simp only [collectEndpoints] at h
    cases hr : runEndpoint (ops e) mr with
    | abort => rw [hr] at h; exact absurd h (by simp)
    | missing => rw [hr] at h; exact ih h p hp
    | got d =>
      rw [hr] at h
      cases hc : collectEndpoints ops mr es with
      | none => rw [hc] at h; exact absurd h (by simp)
      | some L' =>
        rw [hc] at h
        simp only [Option.map_some', Option.some.injEq] at h
        subst h
        rcases List.mem_cons.mp hp with hp | hp
        · subst hp; exact hr
        · exact ih hc p hp

theorem avData_mem {L : List (Endpoint × Json)} {e : Endpoint} {d : Json}
    (h : avData L e = some d) : (e, d) ∈ L := by
  unfold avData at h
  cases hf : L.find? (fun p => decide (p.1 = e)) with
  | none => rw [hf] at h; exact absurd h (by simp)
  | some p =>
    rw [hf] at h
    simp only [Option.map_some', Option.some.injEq] at h
    have hmem := List.mem_of_find?_eq_some hf
    have hpred' := List.find?_some hf
    simp only [decide_eq_true_eq] at hpred'
    have hpred : p.1 = e := hpred'
    have hpe : p = (e, d) := by
      cases p
      simp only [Prod.mk.injEq]
      exact ⟨hpred, h⟩
    rwa [hpe] at hmem

/-- C8: a combined Alpha Vantage record is only produced when every one
of the five sub-endpoints ultimately succeeded (its payload was stored by
the attempt loop); equivalently, if any endpoint ultimately failed —
aborted or missing from `result` — the whole fetch returns `None`, never
a record built from a strict subset of the five endpoints. -/
theorem claim_C8 (ops : Endpoint → ℕ → AVResp) (mr : ℕ) (r : AVRecord)
    (h : fetchAlphaVantage ops mr = some r) :
    ∀ e ∈ avEndpoints, ∃ d, runEndpoint (ops e) mr = EndpointResult.got d := by
  intro e he
  unfold fetchAlphaVantage at h
  cases hc : collectEndpoints ops mr avEndpoints with
  | none => rw [hc] at h; exact absurd h (by simp)
  | some L =>
    rw [hc] at h
    dsimp only at h
    unfold processAlphaVantageData at h
    by_cases hall : avEndpoints.all (fun e => (avData L e).isSome) = true
    · have hsome : (avData L e).isSome := List.all_eq_true.mp hall e he
      obtain ⟨d, hd⟩ := Option.isSome_iff_exists.mp hsome
      exact ⟨d, collectEndpoints_mem hc (e, d) (avData_mem hd)⟩
    · rw [if_neg hall] at h
      exact absurd h (by simp)

/-- A provider behaviour in which every endpoint immediately returns an
empty JSON object. -/
def wAVOk : Endpoint → ℕ → AVResp := fun _ _ => AVResp.ok (Json.obj [])

theorem claim_C8_witness :
    fetchAlphaVantage wAVOk 1 = some (AVRecord.mk 0 0 0 0 0 0 0 0 0 0 0) ∧
    ∃ d, runEndpoint (wAVOk Endpoint.quote) 1 = EndpointResult.got d :=
  ⟨rfl, claim_C8 wAVOk 1 (AVRecord.mk 0 0 0 0 0 0 0 0 0 0 0) rfl
    Endpoint.quote (by decide)⟩

/-- The keys of the fundamentals dict built by
`_prepare_alpha_vantage_fundamentals` (lines 367-384), plus the
`created_at` key added by `_upsert_fundamentals_record` (line 393). -/
inductive FKey where
  | stock_id
  | period_type
  | quarter
  | year
  | revenue
  | expenses
  | profit
  | assets
  | liabilities
  | operating_cashflow
  | investing_cashflow
  | financing_cashflow
  | pe_ratio
  | ps_ratio
  | roe
  | debt_to_equity
  | created_at
deriving DecidableEq, Repr

/-- A value stored in the fundamentals dict: a string, a number, or
Python `None`. -/
inductive FieldVal where
  | str (s : String)
  | num (n : Int)
  | fnone
deriving DecidableEq, Repr

/-- The `float(d.get(k, 0)) or None` idiom (lines 372-383): a missing key
or a zero value becomes `None`; a non-zero value passes through; a
non-numeric present value raises (outer `none`). -/
def fOrNone (d : JDict) (k : String) : Option FieldVal :=
  match getFloat d k with
  | none => none
  | some n => some (if n = 0 then FieldVal.fnone else FieldVal.num n)

/-- Embedding of `_prepare_alpha_vantage_fundamentals` (lines 363-384): the dict
literal in source key order.  The overview dict is
`detailed_data.get('overview', {})`; a raising field conversion
propagates to the caller (`none`). -/
def prepareAlphaVantageFundamentals (ticker : String) (quarter year : Int)
    (income balance cashflow detailedData : JDict) :
    Option (List (FKey × FieldVal)) :=
  match getObj detailedData "overview" with
  | none => none
  | some ov =>
    match fOrNone income "totalRevenue", fOrNone income "totalExpenses",
        fOrNone income "grossProfit", fOrNone balance "totalAssets",
        fOrNone balance "totalLiabilities",
        fOrNone cashflow "operatingCashflow",
        fOrNone cashflow "cashflowFromInvestment",
        fOrNone cashflow "cashflowFromFinancing",
        fOrNone ov "PERatio", fOrNone ov "PriceToSalesRatioTTM",
        fOrNone ov "ReturnOnEquityTTM", fOrNone ov "DebtToEquityRatio" with
    | some revenue, some expenses, some profit, some assets,
        some liabilities, some operatingCashflow, some investingCashflow,
        some financingCashflow, some peRatio, some psRatio, some roeVal,
        some debtToEquity =>
      some [(FKey.stock_id, FieldVal.str ticker),
            (FKey.period_type, FieldVal.str "QUARTER"),
            (FKey.quarter, FieldVal.num quarter),
            (FKey.year, FieldVal.num year),
            (FKey.revenue, revenue),
            (FKey.expenses, expenses),
            (FKey.profit, profit),
            (FKey.assets, assets),
            (FKey.liabilities, liabilities),
            (FKey.operating_cashflow, operatingCashflow),
            (FKey.investing_cashflow, investingCashflow),
            (FKey.financing_cashflow, financingCashflow),
            (FKey.pe_ratio, peRatio),
            (FKey.ps_ratio, psRatio),
            (FKey.roe, roeVal),
            (FKey.debt_to_equity, debtToEquity)]
    | _, _, _, _, _, _, _, _, _, _, _, _ => none

/-- Embedding of `_upsert_fundamentals_record` (lines 387-400): append `created_at`,
then drop every key whose value is `None` — the dict that is actually
written. -/
def upsertPayload (createdAt : String) (r : List (FKey × FieldVal)) :
    List (FKey × FieldVal) :=
  (r ++ [(FKey.created_at, FieldVal.str createdAt)]).filter
    (fun p => decide (p.2 ≠ FieldVal.fnone))

/-- The twelve numeric fields of the Alpha Vantage fundamentals mapping:
record key, source dict and source key. -/
def avNumericFields (income balance cashflow ov : JDict) :
    List (FKey × JDict × String) :=
  [(FKey.revenue, income, "totalRevenue"),
   (FKey.expenses, income, "totalExpenses"),
   (FKey.profit, income, "grossProfit"),
   (FKey.assets, balance, "totalAssets"),
   (FKey.liabilities, balance, "totalLiabilities"),
   (FKey.operating_cashflow, cashflow, "operatingCashflow"),
   (FKey.investing_cashflow, cashflow, "cashflowFromInvestment"),
   (FKey.financing_cashflow, cashflow, "cashflowFromFinancing"),
   (FKey.pe_ratio, ov, "PERatio"),
   (FKey.ps_ratio, ov, "PriceToSalesRatioTTM"),
   (FKey.roe, ov, "ReturnOnEquityTTM"),
   (FKey.debt_to_equity, ov, "DebtToEquityRatio")]

theorem fOrNone_zero {d : JDict} {k : String} {v : FieldVal}
    (h : fOrNone d k = some v) (h0 : getFloat d k = some 0) :
    v = FieldVal.fnone := by
  unfold fOrNone at h
  rw [h0] at h
  simp only [Option.some.injEq] at h
  rw [← h]
  simp

theorem fOrNone_nonzero {d : JDict} {k : String} {v : FieldVal} {n : Int}
    (h : fOrNone d k = some v) (hn : getFloat d k = some n) (hne : n ≠ 0) :
    v = FieldVal.num n := by
  unfold fOrNone at h
  rw [hn] at h
  simp only [Option.some.injEq] at h
  rw [← h, if_neg hne]

theorem key_not_in_payload {r : List (FKey × FieldVal)} {k : FKey}
    {ca : String}
    (hall : ∀ v, (k, v) ∈ r ++ [(FKey.created_at, FieldVal.str ca)] →
      v = FieldVal.fnone) :
    k ∉ (upsertPayload ca r).map Prod.fst := by
  intro hk
  obtain ⟨p, hp, hpk⟩ := List.mem_map.mp hk
  obtain ⟨hmem, hfil⟩ := List.mem_filter.mp hp
  have hne : p.2 ≠ FieldVal.fnone := of_decide_eq_true hfil
  have hpe : p = (k, p.2) := by
    cases p
    simp only [Prod.mk.injEq]
    exact ⟨hpk, trivial⟩
  rw [hpe] at hmem
  exact hne (hall p.2 hmem)

theorem payload_field_spec {key : FKey} {v : FieldVal} {d : JDict}
    {k : String} {r : List (FKey × FieldVal)} {ca : String}
    (hv : fOrNone d k = some v)
    (hin : (key, v) ∈ r ++ [(FKey.created_at, FieldVal.str ca)])
    (huniq : ∀ w, (key, w) ∈ r ++ [(FKey.created_at, FieldVal.str ca)] →
      w = v) :
    (getFloat d k = some 0 → key ∉ (upsertPayload ca r).map Prod.fst) ∧
    (∀ n, getFloat d k = some n → n ≠ 0 →
      (key, FieldVal.num n) ∈ upsertPayload ca r) := by
  constructor
  · intro h0
    have hz := fOrNone_zero hv h0
    subst hz
    exact key_not_in_payload huniq
  · intro n hn hne
    have hz := fOrNone_nonzero hv hn hne
    subst hz
    refine List.mem_filter.mpr ⟨hin, ?_⟩
    simp

/-- C10: in the Alpha Vantage fundamentals mapping, every numeric field
whose fetched value is missing or zero (`float(d.get(k, 0))` evaluating
to `0`) is mapped to `None` by the `or None` idiom and, because
`_upsert_fundamentals_record` strips `None`-valued keys before writing,
that key is absent from the written payload — a legitimate zero is never
written; a non-zero fetched value is written unchanged under its key. -/
theorem claim_C10 (ticker : String) (quarter year : Int)
    (income balance cashflow detailedData ov : JDict)
    (fnd : List (FKey × FieldVal)) (createdAt : String)
    (hov : getObj detailedData "overview" = some ov)
    (hprep : prepareAlphaVantageFundamentals ticker quarter year income
      balance cashflow detailedData = some fnd) :
    ∀ fk d sk, (fk, d, sk) ∈ avNumericFields income balance cashflow ov →
      (getFloat d sk = some 0 →
        fk ∉ (upsertPayload createdAt fnd).map Prod.fst) ∧
      (∀ n, getFloat d sk = some n → n ≠ 0 →
        (fk, FieldVal.num n) ∈ upsertPayload createdAt fnd) := by
  unfold prepareAlphaVantageFundamentals at hprep
  rw [hov] at hprep
  dsimp only at hprep
  split at hprep
  case _ revenue expenses profit assets liabilities operatingCashflow
      investingCashflow financingCashflow peRatio psRatio roeVal
      debtToEquity h1 h2 h3 h4 h5 h6 h7 h8 h9 h10 h11 h12 =>
    simp only [Option.some.injEq] at hprep
    subst hprep
    intro fk d sk hmem
    simp only [avNumericFields, List.mem_cons, List.not_mem_nil, or_false,
      Prod.mk.injEq] at hmem
    rcases hmem with hk | hk | hk | hk | hk | hk | hk | hk | hk | hk | hk | hk
    · obtain ⟨rfl, rfl, rfl⟩ := hk
      exact payload_field_spec h1 (by simp) (by intro w hw; simp at hw; exact hw)
    · obtain ⟨rfl, rfl, rfl⟩ := hk
      exact payload_field_spec h2 (by simp) (by intro w hw; simp at hw; exact hw)
    · obtain ⟨rfl, rfl, rfl⟩ := hk
      exact payload_field_spec h3 (by simp) (by intro w hw; simp at hw; exact hw)
    · obtain ⟨rfl, rfl, rfl⟩ := hk
      exact payload_field_spec h4 (by simp) (by intro w hw; simp at hw; exact hw)
    · obtain ⟨rfl, rfl, rfl⟩ := hk
      exact payload_field_spec h5 (by simp) (by intro w hw; simp at hw; exact hw)
    · obtain ⟨rfl, rfl, rfl⟩ := hk
      exact payload_field_spec h6 (by simp) (by intro w hw; simp at hw; exact hw)
    · obtain ⟨rfl, rfl, rfl⟩ := hk
      exact payload_field_spec h7 (by simp) (by intro w hw; simp at hw; exact hw)
    · obtain ⟨rfl, rfl, rfl⟩ := hk
      exact payload_field_spec h8 (by simp) (by intro w hw; simp at hw; exact hw)
    · obtain ⟨rfl, rfl, rfl⟩ := hk
      exact payload_field_spec h9 (by simp) (by intro w hw; simp at hw; exact hw)
    · obtain ⟨rfl, rfl, rfl⟩ := hk
      exact payload_field_spec h10 (by simp) (by intro w hw; simp at hw; exact hw)
    · obtain ⟨rfl, rfl, rfl⟩ := hk
      exact payload_field_spec h11 (by simp) (by intro w hw; simp at hw; exact hw)
    · obtain ⟨rfl, rfl, rfl⟩ := hk
      exact payload_field_spec h12 (by simp) (by intro w hw; simp at hw; exact hw)
  case _ =>
    exact absurd hprep (by simp)

/-- Witness income statement dict: `totalRevenue` present and zero. -/
def wIncomeZero : JDict := [("totalRevenue", Json.num 0)]

/-- Witness balance sheet dict: `totalAssets` present and non-zero. -/
def wBalanceFive : JDict := [("totalAssets", Json.num 5)]

/-- The fundamentals dict produced from the witness inputs. -/
def wFnd : List (FKey × FieldVal) :=
  [(FKey.stock_id, FieldVal.str "AAPL"),
   (FKey.period_type, FieldVal.str "QUARTER"),
   (FKey.quarter, FieldVal.num 1),
   (FKey.year, FieldVal.num 2024),
   (FKey.revenue, FieldVal.fnone),
   (FKey.expenses, FieldVal.fnone),
   (FKey.profit, FieldVal.fnone),
   (FKey.assets, FieldVal.num 5),
   (FKey.liabilities, FieldVal.fnone),
   (FKey.operating_cashflow, FieldVal.fnone),
   (FKey.investing_cashflow, FieldVal.fnone),
   (FKey.financing_cashflow, FieldVal.fnone),
   (FKey.pe_ratio, FieldVal.fnone),
   (FKey.ps_ratio, FieldVal.fnone),
   (FKey.roe, FieldVal.fnone),
   (FKey.debt_to_equity, FieldVal.fnone)]

theorem claim_C10_witness :
    prepareAlphaVantageFundamentals "AAPL" 1 2024 wIncomeZero wBalanceFive
      [] [] = some wFnd ∧
    getFloat wIncomeZero "totalRevenue" = some 0 ∧
    FKey.revenue ∉ (upsertPayload "now" wFnd).map Prod.fst ∧
    (FKey.assets, FieldVal.num 5) ∈ upsertPayload "now" wFnd := by
  have hprep : prepareAlphaVantageFundamentals "AAPL" 1 2024 wIncomeZero
      wBalanceFive [] [] = some wFnd := rfl
  have h := claim_C10 "AAPL" 1 2024 wIncomeZero wBalanceFive [] [] []
    wFnd "now" rfl hprep
  have hmem1 : (FKey.revenue, wIncomeZero, "totalRevenue") ∈
      avNumericFields wIncomeZero wBalanceFive [] [] := by
    unfold avNumericFields
    exact List.mem_cons_self _ _
  have hmem2 : (FKey.assets, wBalanceFive, "totalAssets") ∈
      avNumericFields wIncomeZero wBalanceFive [] [] := by
    unfold avNumericFields
    simp
  refine ⟨hprep, rfl, ?_, ?_⟩
  · exact (h FKey.revenue wIncomeZero "totalRevenue" hmem1).1 rfl
  · exact (h FKey.assets wBalanceFive "totalAssets" hmem2).2 5 rfl (by decide)
